import Mathlib

/-!
Shallow embedding of the `mur3` crate (MurmurHash3, 32-bit and 128-bit
variants) from `src/lib.rs`, together with proofs of the specification
claims.  Byte sequences are modelled as `List Nat`; every place the code
reads a byte applies `% 256`, every 32-bit (resp. 64-bit) machine
operation applies `% 2^32` (resp. `% 2^64`).
-/

/-- Little-endian word assembly, modelling `u32::from_le` / `u64::from_le`
of bytes read by `ptr::read_unaligned`: the first byte is least
significant. -/
def getLeList (l : List Nat) : Nat :=
  l.foldr (fun b acc => b % 256 + 256 * acc) 0

/-- Tail-word assembly, modelling the `k ^= (byte as uN) << (8*i)` loops of
`finish_tail32` / `finish_tail128`, starting at bit offset `8*i`. -/
def tailWordAux : List Nat → Nat → Nat
  | [], _ => 0
  | b :: rest, i => ((b % 256) <<< (8 * i)) ^^^ tailWordAux rest (i + 1)

/-- `u32::rotate_left`. -/
def rotl32 (x n : Nat) : Nat :=
  (((x % 2 ^ 32) <<< n) % 2 ^ 32) ||| ((x % 2 ^ 32) >>> (32 - n))

/-- `u64::rotate_left`. -/
def rotl64 (x n : Nat) : Nat :=
  (((x % 2 ^ 64) <<< n) % 2 ^ 64) ||| ((x % 2 ^ 64) >>> (64 - n))

/-- `ptr::copy_nonoverlapping(src, buf + off, src.len())`: overwrite
`buf[off + i]` with `src[i]` for each `i < src.length`, leaving the rest
of `buf` (including stale bytes past the copied region) unchanged. -/
def copyInto : List Nat → Nat → List Nat → List Nat
  | [], _, _ => []
  | b :: buf, off + 1, src => b :: copyInto buf off src
  | _ :: buf, 0, s :: src => s :: copyInto buf 0 src
  | b :: buf, 0, [] => b :: buf

namespace hash32

def C1 : Nat := 0xcc9e2d51
def C2 : Nat := 0x1b873593
def C3 : Nat := 0xe6546b64
def C4 : Nat := 0x85ebca6b
def C5 : Nat := 0xc2b2ae35

/-- `fmix32` from `src/lib.rs`. -/
def fmix32 (h : Nat) : Nat :=
  let h := (h % 2 ^ 32) ^^^ ((h % 2 ^ 32) >>> 16)
  let h := h * C4 % 2 ^ 32
  let h := h ^^^ (h >>> 13)
  let h := h * C5 % 2 ^ 32
  h ^^^ (h >>> 16)

/-- `feed32` from `src/lib.rs`: one 32-bit block step. -/
def feed32 (h k : Nat) : Nat :=
  let k := k * C1 % 2 ^ 32
  let k := rotl32 k 15
  let k := k * C2 % 2 ^ 32
  let h := (h % 2 ^ 32) ^^^ k
  let h := rotl32 h 13
  (h * 5 + C3) % 2 ^ 32

/-- `finish_tail32` from `src/lib.rs`: mix the 0–3 tail bytes (the loop
bound is `0..3`), XOR the total length (`total as u32`), avalanche. -/
def finish_tail32 (tail : List Nat) (total h : Nat) : Nat :=
  let h :=
    if tail = [] then h % 2 ^ 32
    else
      let k := tailWordAux (tail.take 3) 0
      let k := k * C1 % 2 ^ 32
      let k := rotl32 k 15
      let k := k * C2 % 2 ^ 32
      (h % 2 ^ 32) ^^^ k
  let h := h ^^^ (total % 2 ^ 32)
  fmix32 h

/-- The block loop of `murmurhash3_x86_32` / `Hasher32::write`: feed `n`
consecutive 4-byte little-endian blocks, advancing the cursor by 4 each
iteration. -/
def feedN32 : Nat → Nat → List Nat → Nat
  | 0, h, _ => h
  | n + 1, h, bytes => feedN32 n (feed32 h (getLeList (bytes.take 4))) (bytes.drop 4)

/-- `murmurhash3_x86_32` from `src/lib.rs`. -/
def murmurhash3_x86_32 (bytes : List Nat) (seed : Nat) : Nat :=
  let nblocks := bytes.length / 4
  finish_tail32 (bytes.drop (4 * nblocks)) bytes.length
    (feedN32 nblocks (seed % 2 ^ 32) bytes)

/-- The state of `Hasher32`: accumulator `h : u32`, pending buffer
`buf : [u8; 4]` (always 4 entries), count `len` of valid buffered bytes,
count `consume` of bytes already mixed into `h`. -/
structure Hasher32 where
  h : Nat
  buf : List Nat
  len : Nat
  consume : Nat
deriving DecidableEq, Repr

/-- `Hasher32::with_seed`. -/
def Hasher32.with_seed (seed : Nat) : Hasher32 :=
  { h := seed % 2 ^ 32, buf := [0, 0, 0, 0], len := 0, consume := 0 }

/-- `<Hasher32 as Hasher>::write` from `src/lib.rs`. -/
def Hasher32.write (st : Hasher32) (bytes : List Nat) : Hasher32 :=
  if st.len + bytes.length < 4 then
    { st with buf := copyInto st.buf st.len bytes, len := st.len + bytes.length }
  else
    let p :=
      if st.len ≠ 0 then
        let cnt := 4 - st.len
        let buf := copyInto st.buf st.len (bytes.take cnt)
        let n := getLeList (buf.take 4)
        ({ h := feed32 st.h n, buf := buf, len := 0,
           consume := st.consume + 4 : Hasher32 }, bytes.drop cnt)
      else (st, bytes)
    let st1 := p.1
    let bytes1 := p.2
    let nblocks := bytes1.length / 4
    let rest := bytes1.drop (4 * nblocks)
    let len := bytes1.length % 4
    { h := feedN32 nblocks st1.h bytes1
      buf := if len > 0 then copyInto st1.buf 0 rest else st1.buf
      len := len
      consume := st1.consume + 4 * nblocks }

/-- `Hasher32::finish32`: finalize the pending tail `buf[0..len]` with
total length `consume + len`, reading but not mutating the state. -/
def Hasher32.finish32 (st : Hasher32) : Nat :=
  finish_tail32 (st.buf.take st.len) (st.consume + st.len) st.h

/-- `<Hasher32 as Hasher>::finish`: `self.finish32() as u64`. -/
def Hasher32.finish (st : Hasher32) : Nat :=
  st.finish32 % 2 ^ 64

/-- State-passing rendering of `Hasher32::finish32`, which takes `&self`:
the method returns the hash value and leaves every field as it was. -/
def Hasher32.finish32Op (st : Hasher32) : Nat × Hasher32 :=
  (st.finish32, st)

end hash32

namespace hash128

def C1 : Nat := 0x87c37b91114253d5
def C2 : Nat := 0x4cf5ad432745937f
def C3 : Nat := 0x52dce729
def C4 : Nat := 0x38495ab5

/-- `fmix64` from `src/lib.rs`. -/
def fmix64 (k : Nat) : Nat :=
  let k := (k % 2 ^ 64) ^^^ ((k % 2 ^ 64) >>> 33)
  let k := k * 0xff51afd7ed558ccd % 2 ^ 64
  let k := k ^^^ (k >>> 33)
  let k := k * 0xc4ceb9fe1a85ec53 % 2 ^ 64
  k ^^^ (k >>> 33)

/-- `feed128` from `src/lib.rs`: one 16-byte block step; note the update
of `h2` reads the already-updated `h1`. -/
def feed128 (h1 h2 k1 k2 : Nat) : Nat × Nat :=
  let k1 := k1 * C1 % 2 ^ 64
  let k1 := rotl64 k1 31
  let k1 := k1 * C2 % 2 ^ 64
  let h1 := (h1 % 2 ^ 64) ^^^ k1
  let h1 := rotl64 h1 27
  let h1 := (h1 + h2 % 2 ^ 64) % 2 ^ 64
  let h1 := (h1 * 5 + C3) % 2 ^ 64
  let k2 := k2 * C2 % 2 ^ 64
  let k2 := rotl64 k2 33
  let k2 := k2 * C1 % 2 ^ 64
  let h2 := (h2 % 2 ^ 64) ^^^ k2
  let h2 := rotl64 h2 31
  let h2 := (h2 + h1) % 2 ^ 64
  let h2 := (h2 * 5 + C4) % 2 ^ 64
  (h1, h2)

/-- `finish_tail128` from `src/lib.rs`: mix up to 8 tail bytes into `h1`,
then (if bytes remain) up to 8 more into `h2`, XOR the total length into
both, cross-add, avalanche each, cross-add again. -/
def finish_tail128 (tail : List Nat) (total h1 h2 : Nat) : Nat × Nat :=
  let p :=
    if tail = [] then (h1 % 2 ^ 64, h2 % 2 ^ 64)
    else
      let k1 := tailWordAux (tail.take 8) 0
      let k1 := k1 * C1 % 2 ^ 64
      let k1 := rotl64 k1 31
      let k1 := k1 * C2 % 2 ^ 64
      let h1 := (h1 % 2 ^ 64) ^^^ k1
      if tail.drop 8 = [] then (h1, h2 % 2 ^ 64)
      else
        let k2 := tailWordAux ((tail.drop 8).take 8) 0
        let k2 := k2 * C2 % 2 ^ 64
        let k2 := rotl64 k2 33
        let k2 := k2 * C1 % 2 ^ 64
        (h1, (h2 % 2 ^ 64) ^^^ k2)
  let h1 := p.1 ^^^ (total % 2 ^ 64)
  let h2 := p.2 ^^^ (total % 2 ^ 64)
  let h1 := (h1 + h2) % 2 ^ 64
  let h2 := (h2 + h1) % 2 ^ 64
  let h1 := fmix64 h1
  let h2 := fmix64 h2
  let h1 := (h1 + h2) % 2 ^ 64
  let h2 := (h2 + h1) % 2 ^ 64
  (h1, h2)

/-- The block loop of `murmurhash3_x64_128` / `Hasher128::write`: feed `n`
consecutive 16-byte blocks (two little-endian 64-bit words each). -/
def feedN128 : Nat → Nat → Nat → List Nat → Nat × Nat
  | 0, h1, h2, _ => (h1, h2)
  | n + 1, h1, h2, bytes =>
    let r := feed128 h1 h2 (getLeList (bytes.take 8)) (getLeList ((bytes.drop 8).take 8))
    feedN128 n r.1 r.2 (bytes.drop 16)

/-- `murmurhash3_x64_128` from `src/lib.rs`. -/
def murmurhash3_x64_128 (bytes : List Nat) (seed : Nat) : Nat × Nat :=
  let nblocks := bytes.length / 16
  let r := feedN128 nblocks (seed % 2 ^ 32) (seed % 2 ^ 32) bytes
  finish_tail128 (bytes.drop (16 * nblocks)) bytes.length r.1 r.2

/-- The state of `Hasher128`: accumulators `h1 h2 : u64`, pending buffer
`buf : [u8; 16]` (always 16 entries), count `len` of valid buffered
bytes, count `consume` of bytes already mixed in. -/
structure Hasher128 where
  h1 : Nat
  h2 : Nat
  buf : List Nat
  len : Nat
  consume : Nat
deriving DecidableEq, Repr

/-- `Hasher128::with_seed`. -/
def Hasher128.with_seed (seed : Nat) : Hasher128 :=
  { h1 := seed % 2 ^ 32, h2 := seed % 2 ^ 32,
    buf := List.replicate 16 0, len := 0, consume := 0 }

/-- `<Hasher128 as Hasher>::write` from `src/lib.rs`. -/
def Hasher128.write (st : Hasher128) (bytes : List Nat) : Hasher128 :=
  if st.len + bytes.length < 16 then
    { st with buf := copyInto st.buf st.len bytes, len := st.len + bytes.length }
  else
    let p :=
      if st.len ≠ 0 then
        let cnt := 16 - st.len
        let buf := copyInto st.buf st.len (bytes.take cnt)
        let r := feed128 st.h1 st.h2 (getLeList (buf.take 8)) (getLeList ((buf.drop 8).take 8))
        ({ h1 := r.1, h2 := r.2, buf := buf, len := 0,
           consume := st.consume + 16 : Hasher128 }, bytes.drop cnt)
      else (st, bytes)
    let st1 := p.1
    let bytes1 := p.2
    let nblocks := bytes1.length / 16
    let rest := bytes1.drop (16 * nblocks)
    let len := bytes1.length % 16
    let r := feedN128 nblocks st1.h1 st1.h2 bytes1
    { h1 := r.1
      h2 := r.2
      buf := if len > 0 then copyInto st1.buf 0 rest else st1.buf
      len := len
      consume := st1.consume + 16 * nblocks }

/-- `Hasher128::finish128`: finalize the pending tail `buf[0..len]` with
total length `consume + len`, reading but not mutating the state. -/
def Hasher128.finish128 (st : Hasher128) : Nat × Nat :=
  finish_tail128 (st.buf.take st.len) (st.consume + st.len) st.h1 st.h2

/-- `<Hasher128 as Hasher>::finish`: `self.finish128().0`. -/
def Hasher128.finish (st : Hasher128) : Nat :=
  st.finish128.1

/-- State-passing rendering of `Hasher128::finish128`, which takes
`&self`: the method returns the pair and leaves every field as it was. -/
def Hasher128.finish128Op (st : Hasher128) : (Nat × Nat) × Hasher128 :=
  (st.finish128, st)

end hash128

/-! ## Helper lemmas about the buffer copy and the block loops -/

theorem copyInto_length : ∀ (buf : List Nat) (off : Nat) (src : List Nat),
    (copyInto buf off src).length = buf.length
  | [], _, _ => by simp [copyInto]
  | _ :: buf, off + 1, src => by
    simp [copyInto, copyInto_length buf off src]
  | _ :: buf, 0, _ :: src => by
    simp [copyInto, copyInto_length buf 0 src]
  | _ :: _, 0, [] => by simp [copyInto]

theorem copyInto_take : ∀ (buf : List Nat) (off : Nat) (src : List Nat),
    off + src.length ≤ buf.length →
    (copyInto buf off src).take (off + src.length) = buf.take off ++ src
  | [], off, src, h => by
    simp only [List.length_nil, Nat.le_zero, Nat.add_eq_zero] at h
    obtain ⟨h0, h1⟩ := h
    subst h0
    have h2 : src = [] := List.eq_nil_of_length_eq_zero h1
    subst h2
    simp [copyInto]
  | b :: buf, off + 1, src, h => by
    have e : off + 1 + src.length = (off + src.length) + 1 := by omega
    rw [e]
    simp only [copyInto, List.take_succ_cons]
    rw [copyInto_take buf off src (by simp at h; omega)]
    simp
  | b :: buf, 0, s :: src, h => by
    have e : 0 + (s :: src).length = (0 + src.length) + 1 := by simp
    rw [e]
    simp only [copyInto, List.take_succ_cons]
    rw [copyInto_take buf 0 src (by simp at h; omega)]
    simp
  | b :: buf, 0, [], h => by simp [copyInto]

theorem copyInto_full (buf : List Nat) (off : Nat) (src : List Nat)
    (h : off + src.length = buf.length) :
    copyInto buf off src = buf.take off ++ src := by
  have h1 := copyInto_take buf off src (le_of_eq h)
  rw [← h1]
  rw [List.take_of_length_le (by rw [copyInto_length]; omega)]

namespace hash32

theorem feedN32_add : ∀ (a b h : Nat) (bytes : List Nat),
    feedN32 (a + b) h bytes
      = feedN32 b (feedN32 a h bytes) (bytes.drop (4 * a))
  | 0, b, h, bytes => by simp [feedN32]
  | a + 1, b, h, bytes => by
    have e : a + 1 + b = (a + b) + 1 := by omega
    rw [e]
    simp only [feedN32]
    rw [feedN32_add a b _ (bytes.drop 4), List.drop_drop]
    have e2 : 4 + 4 * a = 4 * (a + 1) := by omega
    rw [e2]

theorem feedN32_append_le : ∀ (n h : Nat) (B c : List Nat), 4 * n ≤ B.length →
    feedN32 n h (B ++ c) = feedN32 n h B
  | 0, _, _, _, _ => rfl
  | n + 1, h, B, c, hle => by
    simp only [feedN32]
    rw [List.take_append_of_le_length (by omega),
      List.drop_append_of_le_length (by omega)]
    exact feedN32_append_le n _ (B.drop 4) c (by simp; omega)

theorem write_small (st : Hasher32) (c : List Nat) (h : st.len + c.length < 4) :
    st.write c
      = { st with buf := copyInto st.buf st.len c, len := st.len + c.length } := by
  unfold Hasher32.write
  rw [if_pos h]

theorem write_buffered (st : Hasher32) (c : List Nat)
    (h : ¬ st.len + c.length < 4) (h2 : st.len ≠ 0) :
    st.write c
      = { h := feedN32 ((c.drop (4 - st.len)).length / 4)
              (feed32 st.h (getLeList ((copyInto st.buf st.len (c.take (4 - st.len))).take 4)))
              (c.drop (4 - st.len))
          buf := if (c.drop (4 - st.len)).length % 4 > 0 then
              copyInto (copyInto st.buf st.len (c.take (4 - st.len))) 0
                ((c.drop (4 - st.len)).drop (4 * ((c.drop (4 - st.len)).length / 4)))
            else copyInto st.buf st.len (c.take (4 - st.len))
          len := (c.drop (4 - st.len)).length % 4
          consume := st.consume + 4 + 4 * ((c.drop (4 - st.len)).length / 4) } := by
  unfold Hasher32.write
  rw [if_neg h]
  simp only [if_pos h2]

/-- Abstraction relation: hasher state `st` represents having absorbed
exactly the byte sequence `B` after `with_seed seed`. -/
def Inv32 (seed : Nat) (B : List Nat) (st : Hasher32) : Prop :=
  st.buf.length = 4 ∧
  st.len = B.length % 4 ∧
  st.buf.take st.len = B.drop (4 * (B.length / 4)) ∧
  st.h = feedN32 (B.length / 4) (seed % 2 ^ 32) B ∧
  st.consume = 4 * (B.length / 4)

theorem write_aligned (st : Hasher32) (c : List Nat)
    (h : ¬ st.len + c.length < 4) (h2 : st.len = 0) :
    st.write c
      = { h := feedN32 (c.length / 4) st.h c
          buf := if c.length % 4 > 0 then
              copyInto st.buf 0 (c.drop (4 * (c.length / 4)))
            else st.buf
          len := c.length % 4
          consume := st.consume + 4 * (c.length / 4) } := by
  unfold Hasher32.write
  rw [if_neg h]
  have h3 : ¬ st.len ≠ 0 := by omega
  simp only [if_neg h3]

theorem write_inv32 (seed : Nat) (B c : List Nat) (st : Hasher32)
    (hinv : Inv32 seed B st) : Inv32 seed (B ++ c) (st.write c) := by
  obtain ⟨hbuf, hlen, htail, hh, hcon⟩ := hinv
  have hql : 4 * (B.length / 4) ≤ B.length := by omega
  by_cases hsm : st.len + c.length < 4
  · -- branch 1: incoming bytes only buffered, no block completed
    rw [write_small st c hsm]
    have hd : (B ++ c).length / 4 = B.length / 4 := by simp; omega
    refine ⟨?_, ?_, ?_, ?_, ?_⟩
    · show (copyInto st.buf st.len c).length = 4
      rw [copyInto_length]; exact hbuf
    · show st.len + c.length = (B ++ c).length % 4
      simp; omega
    · show (copyInto st.buf st.len c).take (st.len + c.length)
        = (B ++ c).drop (4 * ((B ++ c).length / 4))
      rw [hd, copyInto_take st.buf st.len c (by omega),
        List.drop_append_of_le_length hql, htail]
    · show st.h = feedN32 ((B ++ c).length / 4) (seed % 2 ^ 32) (B ++ c)
      rw [hd, feedN32_append_le _ _ _ _ (by omega), hh]
    · show st.consume = 4 * ((B ++ c).length / 4)
      rw [hd, hcon]
  · by_cases hz : st.len = 0
    · -- branch 3: no pending bytes, blocks consumed directly from `c`
      rw [write_aligned st c hsm hz]
      have hr0 : B.length % 4 = 0 := by omega
      have hTnil : B.drop (4 * (B.length / 4)) = [] :=
        List.eq_nil_of_length_eq_zero (by simp; omega)
      have hd : (B ++ c).length / 4 = B.length / 4 + c.length / 4 := by
        simp; omega
      have hn : 4 * ((B ++ c).length / 4) = B.length + 4 * (c.length / 4) := by
        simp; omega
      have hdropc : (B ++ c).drop (4 * ((B ++ c).length / 4))
          = c.drop (4 * (c.length / 4)) := by
        rw [hn, List.drop_append_eq_append_drop,
          List.drop_eq_nil_of_le (by omega)]
        simp
      refine ⟨?_, ?_, ?_, ?_, ?_⟩
      · show (if c.length % 4 > 0 then
            copyInto st.buf 0 (c.drop (4 * (c.length / 4))) else st.buf).length = 4
        split <;> simp [copyInto_length, hbuf]
      · show c.length % 4 = (B ++ c).length % 4
        simp; omega
      · show (if c.length % 4 > 0 then
              copyInto st.buf 0 (c.drop (4 * (c.length / 4))) else st.buf).take
            (c.length % 4) = (B ++ c).drop (4 * ((B ++ c).length / 4))
        rw [hdropc]
        have hrl : (c.drop (4 * (c.length / 4))).length = c.length % 4 := by
          simp; omega
        split
        · have e : c.length % 4 = 0 + (c.drop (4 * (c.length / 4))).length := by
            rw [hrl]; omega
          rw [e, copyInto_take st.buf 0 _ (by rw [hrl]; omega)]
          simp
        · have e : c.length % 4 = 0 := by omega
          rw [e, List.take_zero]
          symm
          exact List.eq_nil_of_length_eq_zero (by rw [hrl]; omega)
      · show feedN32 (c.length / 4) st.h c
          = feedN32 ((B ++ c).length / 4) (seed % 2 ^ 32) (B ++ c)
        rw [hd, feedN32_add, feedN32_append_le _ _ _ _ hql, ← hh,
          List.drop_append_of_le_length hql, hTnil]
        simp
      · show st.consume + 4 * (c.length / 4) = 4 * ((B ++ c).length / 4)
        rw [hd, hcon]; omega
    · -- branch 2: pending buffer completed to one block, then direct blocks
      rw [write_buffered st c hsm hz]
      set T := B.drop (4 * (B.length / 4)) with hT
      have hTlen : T.length = B.length % 4 := by rw [hT]; simp; omega
      have hclen : 4 - st.len ≤ c.length := by omega
      have hb1 : copyInto st.buf st.len (c.take (4 - st.len))
          = T ++ c.take (4 - st.len) := by
        rw [copyInto_full st.buf st.len (c.take (4 - st.len))
          (by simp [List.length_take]; omega), htail]
      have hb1len : (T ++ c.take (4 - st.len)).length = 4 := by
        simp [hTlen]; omega
      have hdl : (c.drop (4 - st.len)).length = c.length - (4 - st.len) := by
        simp
      have htk4 : (T ++ c).take 4 = T ++ c.take (4 - st.len) := by
        rw [List.take_append_eq_append_take,
          List.take_of_length_le (by omega)]
        have e : 4 - T.length = 4 - st.len := by omega
        rw [e]
      have hdr4 : (T ++ c).drop 4 = c.drop (4 - st.len) := by
        rw [List.drop_append_eq_append_drop,
          List.drop_eq_nil_of_le (by omega)]
        have e : 4 - T.length = 4 - st.len := by omega
        rw [e]
        simp
      have hn : 4 * ((B ++ c).length / 4)
          = B.length + ((4 - st.len) + 4 * ((c.length - (4 - st.len)) / 4)) := by
        simp; omega
      refine ⟨?_, ?_, ?_, ?_, ?_⟩
      · show (if (c.drop (4 - st.len)).length % 4 > 0 then
            copyInto (copyInto st.buf st.len (c.take (4 - st.len))) 0
              ((c.drop (4 - st.len)).drop (4 * ((c.drop (4 - st.len)).length / 4)))
          else copyInto st.buf st.len (c.take (4 - st.len))).length = 4
        split <;> simp [copyInto_length, hbuf]
      · show (c.drop (4 - st.len)).length % 4 = (B ++ c).length % 4
        simp; omega
      · show (if (c.drop (4 - st.len)).length % 4 > 0 then
              copyInto (copyInto st.buf st.len (c.take (4 - st.len))) 0
                ((c.drop (4 - st.len)).drop (4 * ((c.drop (4 - st.len)).length / 4)))
            else copyInto st.buf st.len (c.take (4 - st.len))).take
            ((c.drop (4 - st.len)).length % 4)
          = (B ++ c).drop (4 * ((B ++ c).length / 4))
        have hdropc : (B ++ c).drop (4 * ((B ++ c).length / 4))
            = (c.drop (4 - st.len)).drop
                (4 * ((c.drop (4 - st.len)).length / 4)) := by
          rw [hn, List.drop_append_eq_append_drop,
            List.drop_eq_nil_of_le (by omega)]
          have e : B.length + (4 - st.len + 4 * ((c.length - (4 - st.len)) / 4))
              - B.length = (4 - st.len) + 4 * ((c.length - (4 - st.len)) / 4) := by
            omega
          rw [e, ← List.drop_drop, hdl]
          simp
        rw [hdropc]
        have hrl : ((c.drop (4 - st.len)).drop
            (4 * ((c.drop (4 - st.len)).length / 4))).length
            = (c.drop (4 - st.len)).length % 4 := by
          simp; omega
        split
        · have e : (c.drop (4 - st.len)).length % 4 = 0 + ((c.drop (4 - st.len)).drop
              (4 * ((c.drop (4 - st.len)).length / 4))).length := by
            rw [hrl]; omega
          rw [e, copyInto_take _ 0 _ (by rw [hrl, copyInto_length, hbuf]; omega)]
          simp
        · have e : (c.drop (4 - st.len)).length % 4 = 0 := by omega
          rw [e, List.take_zero]
          symm
          exact List.eq_nil_of_length_eq_zero (by rw [hrl]; omega)
      · show feedN32 ((c.drop (4 - st.len)).length / 4)
            (feed32 st.h (getLeList
              ((copyInto st.buf st.len (c.take (4 - st.len))).take 4)))
            (c.drop (4 - st.len))
          = feedN32 ((B ++ c).length / 4) (seed % 2 ^ 32) (B ++ c)
        have hsplit : (B ++ c).length / 4
            = B.length / 4 + (1 + (c.length - (4 - st.len)) / 4) := by
          simp; omega
        rw [hsplit, feedN32_add, feedN32_append_le _ _ _ _ hql, ← hh,
          List.drop_append_of_le_length hql, ← hT]
        have hone : 1 + (c.length - (4 - st.len)) / 4
            = ((c.length - (4 - st.len)) / 4) + 1 := by omega
        rw [hone]
        simp only [feedN32]
        rw [htk4, hdr4, hb1, List.take_of_length_le (le_of_eq hb1len), hdl]
      · show st.consume + 4 + 4 * ((c.drop (4 - st.len)).length / 4)
          = 4 * ((B ++ c).length / 4)
        rw [hdl, hcon]
        simp
        omega

theorem foldWrite_inv32 : ∀ (chunks : List (List Nat)) (seed : Nat)
    (B : List Nat) (st : Hasher32), Inv32 seed B st →
    Inv32 seed (B ++ chunks.flatten) (chunks.foldl Hasher32.write st)
  | [], seed, B, st, h => by simpa using h
  | c :: cs, seed, B, st, h => by
    simp only [List.foldl_cons, List.flatten_cons, ← List.append_assoc]
    exact foldWrite_inv32 cs seed (B ++ c) _ (write_inv32 seed B c st h)

theorem init_inv32 (seed : Nat) : Inv32 seed [] (Hasher32.with_seed seed) := by
  refine ⟨rfl, rfl, rfl, rfl, rfl⟩

theorem finish_inv32 (seed : Nat) (B : List Nat) (st : Hasher32)
    (hinv : Inv32 seed B st) : st.finish32 = murmurhash3_x86_32 B seed := by
  obtain ⟨hbuf, hlen, htail, hh, hcon⟩ := hinv
  show finish_tail32 (st.buf.take st.len) (st.consume + st.len) st.h
    = murmurhash3_x86_32 B seed
  have ht : st.consume + st.len = B.length := by omega
  rw [htail, hh, ht]
  rfl

end hash32

namespace hash128

theorem feedN128_add : ∀ (a b h1 h2 : Nat) (bytes : List Nat),
    feedN128 (a + b) h1 h2 bytes
      = feedN128 b (feedN128 a h1 h2 bytes).1 (feedN128 a h1 h2 bytes).2
          (bytes.drop (16 * a))
  | 0, b, h1, h2, bytes => by simp [feedN128]
  | a + 1, b, h1, h2, bytes => by
    have e : a + 1 + b = (a + b) + 1 := by omega
    rw [e]
    simp only [feedN128]
    rw [feedN128_add a b _ _ (bytes.drop 16), List.drop_drop]
    have e2 : 16 + 16 * a = 16 * (a + 1) := by omega
    rw [e2]

theorem feedN128_append_le : ∀ (n h1 h2 : Nat) (B c : List Nat),
    16 * n ≤ B.length →
    feedN128 n h1 h2 (B ++ c) = feedN128 n h1 h2 B
  | 0, _, _, _, _, _ => rfl
  | n + 1, h1, h2, B, c, hle => by
    simp only [feedN128]
    have t1 : (B ++ c).take 8 = B.take 8 :=
      List.take_append_of_le_length (by omega)
    have t2 : (B ++ c).drop 8 = B.drop 8 ++ c :=
      List.drop_append_of_le_length (by omega)
    have t3 : (B.drop 8 ++ c).take 8 = (B.drop 8).take 8 :=
      List.take_append_of_le_length (by simp; omega)
    have t4 : (B ++ c).drop 16 = B.drop 16 ++ c :=
      List.drop_append_of_le_length (by omega)
    rw [t1, t2, t3, t4]
    exact feedN128_append_le n _ _ (B.drop 16) c (by simp; omega)

theorem write128_small (st : Hasher128) (c : List Nat)
    (h : st.len + c.length < 16) :
    st.write c
      = { st with buf := copyInto st.buf st.len c, len := st.len + c.length } := by
  unfold Hasher128.write
  rw [if_pos h]

theorem write128_buffered (st : Hasher128) (c : List Nat)
    (h : ¬ st.len + c.length < 16) (h2 : st.len ≠ 0) :
    st.write c
      = { h1 := (feedN128 ((c.drop (16 - st.len)).length / 16)
              (feed128 st.h1 st.h2
                (getLeList ((copyInto st.buf st.len (c.take (16 - st.len))).take 8))
                (getLeList (((copyInto st.buf st.len (c.take (16 - st.len))).drop 8).take 8))).1
              (feed128 st.h1 st.h2
                (getLeList ((copyInto st.buf st.len (c.take (16 - st.len))).take 8))
                (getLeList (((copyInto st.buf st.len (c.take (16 - st.len))).drop 8).take 8))).2
              (c.drop (16 - st.len))).1
          h2 := (feedN128 ((c.drop (16 - st.len)).length / 16)
              (feed128 st.h1 st.h2
                (getLeList ((copyInto st.buf st.len (c.take (16 - st.len))).take 8))
                (getLeList (((copyInto st.buf st.len (c.take (16 - st.len))).drop 8).take 8))).1
              (feed128 st.h1 st.h2
                (getLeList ((copyInto st.buf st.len (c.take (16 - st.len))).take 8))
                (getLeList (((copyInto st.buf st.len (c.take (16 - st.len))).drop 8).take 8))).2
              (c.drop (16 - st.len))).2
          buf := if (c.drop (16 - st.len)).length % 16 > 0 then
              copyInto (copyInto st.buf st.len (c.take (16 - st.len))) 0
                ((c.drop (16 - st.len)).drop (16 * ((c.drop (16 - st.len)).length / 16)))
            else copyInto st.buf st.len (c.take (16 - st.len))
          len := (c.drop (16 - st.len)).length % 16
          consume := st.consume + 16 + 16 * ((c.drop (16 - st.len)).length / 16) } := by
  unfold Hasher128.write
  rw [if_neg h]
  simp only [if_pos h2]

theorem write128_aligned (st : Hasher128) (c : List Nat)
    (h : ¬ st.len + c.length < 16) (h2 : st.len = 0) :
    st.write c
      = { h1 := (feedN128 (c.length / 16) st.h1 st.h2 c).1
          h2 := (feedN128 (c.length / 16) st.h1 st.h2 c).2
          buf := if c.length % 16 > 0 then
              copyInto st.buf 0 (c.drop (16 * (c.length / 16)))
            else st.buf
          len := c.length % 16
          consume := st.consume + 16 * (c.length / 16) } := by
  unfold Hasher128.write
  rw [if_neg h]
  have h3 : ¬ st.len ≠ 0 := by omega
  simp only [if_neg h3]

/-- Abstraction relation: hasher state `st` represents having absorbed
exactly the byte sequence `B` after `with_seed seed`. -/
def Inv128 (seed : Nat) (B : List Nat) (st : Hasher128) : Prop :=
  st.buf.length = 16 ∧
  st.len = B.length % 16 ∧
  st.buf.take st.len = B.drop (16 * (B.length / 16)) ∧
  st.h1 = (feedN128 (B.length / 16) (seed % 2 ^ 32) (seed % 2 ^ 32) B).1 ∧
  st.h2 = (feedN128 (B.length / 16) (seed % 2 ^ 32) (seed % 2 ^ 32) B).2 ∧
  st.consume = 16 * (B.length / 16)

theorem write_inv128 (seed : Nat) (B c : List Nat) (st : Hasher128)
    (hinv : Inv128 seed B st) : Inv128 seed (B ++ c) (st.write c) := by
  obtain ⟨hbuf, hlen, htail, hh1, hh2, hcon⟩ := hinv
  have hql : 16 * (B.length / 16) ≤ B.length := by omega
  by_cases hsm : st.len + c.length < 16
  · -- branch 1: incoming bytes only buffered, no block completed
    rw [write128_small st c hsm]
    have hd : (B ++ c).length / 16 = B.length / 16 := by simp; omega
    refine ⟨?_, ?_, ?_, ?_, ?_, ?_⟩
    · show (copyInto st.buf st.len c).length = 16
      rw [copyInto_length]; exact hbuf
    · show st.len + c.length = (B ++ c).length % 16
      simp; omega
    · show (copyInto st.buf st.len c).take (st.len + c.length)
        = (B ++ c).drop (16 * ((B ++ c).length / 16))
      rw [hd, copyInto_take st.buf st.len c (by omega),
        List.drop_append_of_le_length hql, htail]
    · show st.h1 = (feedN128 ((B ++ c).length / 16)
        (seed % 2 ^ 32) (seed % 2 ^ 32) (B ++ c)).1
      rw [hd, feedN128_append_le _ _ _ _ _ (by omega), hh1]
    · show st.h2 = (feedN128 ((B ++ c).length / 16)
        (seed % 2 ^ 32) (seed % 2 ^ 32) (B ++ c)).2
      rw [hd, feedN128_append_le _ _ _ _ _ (by omega), hh2]
    · show st.consume = 16 * ((B ++ c).length / 16)
      rw [hd, hcon]
  · by_cases hz : st.len = 0
    · -- branch 3: no pending bytes, blocks consumed directly from `c`
      rw [write128_aligned st c hsm hz]
      have hr0 : B.length % 16 = 0 := by omega
      have hTnil : B.drop (16 * (B.length / 16)) = [] :=
        List.eq_nil_of_length_eq_zero (by simp; omega)
      have hd : (B ++ c).length / 16 = B.length / 16 + c.length / 16 := by
        simp; omega
      have hn : 16 * ((B ++ c).length / 16) = B.length + 16 * (c.length / 16) := by
        simp; omega
      have hdropc : (B ++ c).drop (16 * ((B ++ c).length / 16))
          = c.drop (16 * (c.length / 16)) := by
        rw [hn, List.drop_append_eq_append_drop,
          List.drop_eq_nil_of_le (by omega)]
        simp
      have hmain : feedN128 ((B ++ c).length / 16)
            (seed % 2 ^ 32) (seed % 2 ^ 32) (B ++ c)
          = feedN128 (c.length / 16) st.h1 st.h2 c := by
        rw [hd, feedN128_add, feedN128_append_le _ _ _ _ _ hql, ← hh1, ← hh2,
          List.drop_append_of_le_length hql, hTnil]
        simp
      refine ⟨?_, ?_, ?_, ?_, ?_, ?_⟩
      · show (if c.length % 16 > 0 then
            copyInto st.buf 0 (c.drop (16 * (c.length / 16))) else st.buf).length = 16
        split <;> simp [copyInto_length, hbuf]
      · show c.length % 16 = (B ++ c).length % 16
        simp; omega
      · show (if c.length % 16 > 0 then
              copyInto st.buf 0 (c.drop (16 * (c.length / 16))) else st.buf).take
            (c.length % 16) = (B ++ c).drop (16 * ((B ++ c).length / 16))
        rw [hdropc]
        have hrl : (c.drop (16 * (c.length / 16))).length = c.length % 16 := by
          simp; omega
        split
        · have e : c.length % 16 = 0 + (c.drop (16 * (c.length / 16))).length := by
            rw [hrl]; omega
          rw [e, copyInto_take st.buf 0 _ (by rw [hrl]; omega)]
          simp
        · have e : c.length % 16 = 0 := by omega
          rw [e, List.take_zero]
          symm
          exact List.eq_nil_of_length_eq_zero (by rw [hrl]; omega)
      · show (feedN128 (c.length / 16) st.h1 st.h2 c).1
          = (feedN128 ((B ++ c).length / 16)
              (seed % 2 ^ 32) (seed % 2 ^ 32) (B ++ c)).1
        rw [hmain]
      · show (feedN128 (c.length / 16) st.h1 st.h2 c).2
          = (feedN128 ((B ++ c).length / 16)
              (seed % 2 ^ 32) (seed % 2 ^ 32) (B ++ c)).2
        rw [hmain]
      · show st.consume + 16 * (c.length / 16) = 16 * ((B ++ c).length / 16)
        rw [hd, hcon]; omega
    · -- branch 2: pending buffer completed to one block, then direct blocks
      rw [write128_buffered st c hsm hz]
      set T := B.drop (16 * (B.length / 16)) with hT
      have hTlen : T.length = B.length % 16 := by rw [hT]; simp; omega
      have hclen : 16 - st.len ≤ c.length := by omega
      have hb1 : copyInto st.buf st.len (c.take (16 - st.len))
          = T ++ c.take (16 - st.len) := by
        rw [copyInto_full st.buf st.len (c.take (16 - st.len))
          (by simp [List.length_take]; omega), htail]
      have hb1take : (T ++ c).take 16 = T ++ c.take (16 - st.len) := by
        rw [List.take_append_eq_append_take,
          List.take_of_length_le (by omega)]
        have e : 16 - T.length = 16 - st.len := by omega
        rw [e]
      have hdl : (c.drop (16 - st.len)).length = c.length - (16 - st.len) := by
        simp
      have e8a : (T ++ c).take 8 = (T ++ c.take (16 - st.len)).take 8 := by
        rw [← hb1take, List.take_take]
        norm_num
      have e8b : ((T ++ c).drop 8).take 8
          = ((T ++ c.take (16 - st.len)).drop 8).take 8 := by
        rw [← hb1take, List.drop_take, List.take_take]
        norm_num
      have ht16 : (T ++ c).drop 16 = c.drop (16 - st.len) := by
        rw [List.drop_append_eq_append_drop,
          List.drop_eq_nil_of_le (by omega)]
        have e : 16 - T.length = 16 - st.len := by omega
        rw [e]
        simp
      have hn : 16 * ((B ++ c).length / 16)
          = B.length + ((16 - st.len) + 16 * ((c.length - (16 - st.len)) / 16)) := by
        simp; omega
      have hmain : feedN128 ((B ++ c).length / 16)
            (seed % 2 ^ 32) (seed % 2 ^ 32) (B ++ c)
          = feedN128 ((c.drop (16 - st.len)).length / 16)
              (feed128 st.h1 st.h2
                (getLeList ((copyInto st.buf st.len (c.take (16 - st.len))).take 8))
                (getLeList
                  (((copyInto st.buf st.len (c.take (16 - st.len))).drop 8).take 8))).1
              (feed128 st.h1 st.h2
                (getLeList ((copyInto st.buf st.len (c.take (16 - st.len))).take 8))
                (getLeList
                  (((copyInto st.buf st.len (c.take (16 - st.len))).drop 8).take 8))).2
              (c.drop (16 - st.len)) := by
        have hsplit : (B ++ c).length / 16
            = B.length / 16 + (1 + (c.length - (16 - st.len)) / 16) := by
          simp; omega
        rw [hsplit, feedN128_add, feedN128_append_le _ _ _ _ _ hql, ← hh1, ← hh2,
          List.drop_append_of_le_length hql, ← hT]
        have hone : 1 + (c.length - (16 - st.len)) / 16
            = ((c.length - (16 - st.len)) / 16) + 1 := by omega
        rw [hone]
        simp only [feedN128]
        rw [e8a, e8b, ht16, hb1, hdl]
      refine ⟨?_, ?_, ?_, ?_, ?_, ?_⟩
      · show (if (c.drop (16 - st.len)).length % 16 > 0 then
            copyInto (copyInto st.buf st.len (c.take (16 - st.len))) 0
              ((c.drop (16 - st.len)).drop (16 * ((c.drop (16 - st.len)).length / 16)))
          else copyInto st.buf st.len (c.take (16 - st.len))).length = 16
        split <;> simp [copyInto_length, hbuf]
      · show (c.drop (16 - st.len)).length % 16 = (B ++ c).length % 16
        simp; omega
      · show (if (c.drop (16 - st.len)).length % 16 > 0 then
              copyInto (copyInto st.buf st.len (c.take (16 - st.len))) 0
                ((c.drop (16 - st.len)).drop (16 * ((c.drop (16 - st.len)).length / 16)))
            else copyInto st.buf st.len (c.take (16 - st.len))).take
            ((c.drop (16 - st.len)).length % 16)
          = (B ++ c).drop (16 * ((B ++ c).length / 16))
        have hdropc : (B ++ c).drop (16 * ((B ++ c).length / 16))
            = (c.drop (16 - st.len)).drop
                (16 * ((c.drop (16 - st.len)).length / 16)) := by
          rw [hn, List.drop_append_eq_append_drop,
            List.drop_eq_nil_of_le (by omega)]
          have e : B.length + (16 - st.len + 16 * ((c.length - (16 - st.len)) / 16))
              - B.length
              = (16 - st.len) + 16 * ((c.length - (16 - st.len)) / 16) := by
            omega
          rw [e, ← List.drop_drop, hdl]
          simp
        rw [hdropc]
        have hrl : ((c.drop (16 - st.len)).drop
            (16 * ((c.drop (16 - st.len)).length / 16))).length
            = (c.drop (16 - st.len)).length % 16 := by
          simp; omega
        split
        · have e : (c.drop (16 - st.len)).length % 16
              = 0 + ((c.drop (16 - st.len)).drop
                  (16 * ((c.drop (16 - st.len)).length / 16))).length := by
            rw [hrl]; omega
          rw [e, copyInto_take _ 0 _ (by rw [hrl, copyInto_length, hbuf]; omega)]
          simp
        · have e : (c.drop (16 - st.len)).length % 16 = 0 := by omega
          rw [e, List.take_zero]
          symm
          exact List.eq_nil_of_length_eq_zero (by rw [hrl]; omega)
      · show (feedN128 ((c.drop (16 - st.len)).length / 16)
              (feed128 st.h1 st.h2
                (getLeList ((copyInto st.buf st.len (c.take (16 - st.len))).take 8))
                (getLeList
                  (((copyInto st.buf st.len (c.take (16 - st.len))).drop 8).take 8))).1
              (feed128 st.h1 st.h2
                (getLeList ((copyInto st.buf st.len (c.take (16 - st.len))).take 8))
                (getLeList
                  (((copyInto st.buf st.len (c.take (16 - st.len))).drop 8).take 8))).2
              (c.drop (16 - st.len))).1
          = (feedN128 ((B ++ c).length / 16)
              (seed % 2 ^ 32) (seed % 2 ^ 32) (B ++ c)).1
        rw [hmain]
      · show (feedN128 ((c.drop (16 - st.len)).length / 16)
              (feed128 st.h1 st.h2
                (getLeList ((copyInto st.buf st.len (c.take (16 - st.len))).take 8))
                (getLeList
                  (((copyInto st.buf st.len (c.take (16 - st.len))).drop 8).take 8))).1
              (feed128 st.h1 st.h2
                (getLeList ((copyInto st.buf st.len (c.take (16 - st.len))).take 8))
                (getLeList
                  (((copyInto st.buf st.len (c.take (16 - st.len))).drop 8).take 8))).2
              (c.drop (16 - st.len))).2
          = (feedN128 ((B ++ c).length / 16)
              (seed % 2 ^ 32) (seed % 2 ^ 32) (B ++ c)).2
        rw [hmain]
      · show st.consume + 16 + 16 * ((c.drop (16 - st.len)).length / 16)
          = 16 * ((B ++ c).length / 16)
        rw [hdl, hcon]
        simp
        omega

theorem foldWrite_inv128 : ∀ (chunks : List (List Nat)) (seed : Nat)
    (B : List Nat) (st : Hasher128), Inv128 seed B st →
    Inv128 seed (B ++ chunks.flatten) (chunks.foldl Hasher128.write st)
  | [], seed, B, st, h => by simpa using h
  | c :: cs, seed, B, st, h => by
    simp only [List.foldl_cons, List.flatten_cons, ← List.append_assoc]
    exact foldWrite_inv128 cs seed (B ++ c) _ (write_inv128 seed B c st h)

theorem init_inv128 (seed : Nat) : Inv128 seed [] (Hasher128.with_seed seed) := by
  refine ⟨rfl, rfl, rfl, rfl, rfl, rfl⟩

theorem finish_inv128 (seed : Nat) (B : List Nat) (st : Hasher128)
    (hinv : Inv128 seed B st) : st.finish128 = murmurhash3_x64_128 B seed := by
  obtain ⟨hbuf, hlen, htail, hh1, hh2, hcon⟩ := hinv
  show finish_tail128 (st.buf.take st.len) (st.consume + st.len) st.h1 st.h2
    = murmurhash3_x64_128 B seed
  have ht : st.consume + st.len = B.length := by omega
  rw [htail, hh1, hh2, ht]
  rfl

end hash128

/-! ## Output bounds -/

theorem fmix32_lt (h : Nat) : hash32.fmix32 h < 2 ^ 32 := by
  unfold hash32.fmix32
  refine Nat.xor_lt_two_pow (Nat.mod_lt _ (by norm_num)) ?_
  calc _ ≤ _ := by
        rw [Nat.shiftRight_eq_div_pow]
        exact Nat.div_le_self _ _
    _ < 2 ^ 32 := Nat.mod_lt _ (by norm_num)

theorem finish_tail32_lt (tail : List Nat) (total h : Nat) :
    hash32.finish_tail32 tail total h < 2 ^ 32 :=
  fmix32_lt _

/-! ## The claims -/

/-- C1: for every byte sequence `B`, every 32-bit seed `S`, and every way
of partitioning `B` into an ordered sequence of chunks (including the
empty partition and single-byte chunks), constructing
`Hasher32::with_seed(S)`, calling `write` on each chunk in order, and
then calling `finish32` returns exactly `murmurhash3_x86_32(B, S)`. -/
theorem c1_hasher32_incremental_equals_oneshot
    (chunks : List (List Nat)) (seed : Nat) :
    (chunks.foldl hash32.Hasher32.write (hash32.Hasher32.with_seed seed)).finish32
      = hash32.murmurhash3_x86_32 chunks.flatten seed :=
  hash32.finish_inv32 seed chunks.flatten _
    (hash32.foldWrite_inv32 chunks seed [] _ (hash32.init_inv32 seed))

/-- C2: for every byte sequence `B`, every 32-bit seed `S`, and every way
of partitioning `B` into an ordered sequence of chunks, constructing
`Hasher128::with_seed(S)`, calling `write` on each chunk in order, and
then calling `finish128` returns exactly the pair
`murmurhash3_x64_128(B, S)`. -/
theorem c2_hasher128_incremental_equals_oneshot
    (chunks : List (List Nat)) (seed : Nat) :
    (chunks.foldl hash128.Hasher128.write (hash128.Hasher128.with_seed seed)).finish128
      = hash128.murmurhash3_x64_128 chunks.flatten seed :=
  hash128.finish_inv128 seed chunks.flatten _
    (hash128.foldWrite_inv128 chunks seed [] _ (hash128.init_inv128 seed))

/-- C3: the one-shot functions produce the spec's known-answer vectors:
`"hello"` with seed 0, `"The quick brown fox jumps over the lazy dog."`
with seed 0x2a, and the empty input with seed 0. -/
theorem c3_known_answer_vectors :
    hash32.murmurhash3_x86_32 [104, 101, 108, 108, 111] 0 = 0x248bfa47
    ∧ hash128.murmurhash3_x64_128 [104, 101, 108, 108, 111] 0
        = (0xcbd8a7b341bd9b02, 0x5b1e906a48ae1d19)
    ∧ hash32.murmurhash3_x86_32
        [84, 104, 101, 32, 113, 117, 105, 99, 107, 32, 98, 114, 111, 119, 110,
         32, 102, 111, 120, 32, 106, 117, 109, 112, 115, 32, 111, 118, 101,
         114, 32, 116, 104, 101, 32, 108, 97, 122, 121, 32, 100, 111, 103, 46]
        0x2a = 0xc02d1434
    ∧ hash128.murmurhash3_x64_128
        [84, 104, 101, 32, 113, 117, 105, 99, 107, 32, 98, 114, 111, 119, 110,
         32, 102, 111, 120, 32, 106, 117, 109, 112, 115, 32, 111, 118, 101,
         114, 32, 116, 104, 101, 32, 108, 97, 122, 121, 32, 100, 111, 103, 46]
        0x2a = (0x74f33c659cda5af7, 0x4ec7a891caf316f0)
    ∧ hash32.murmurhash3_x86_32 [] 0 = 0
    ∧ hash128.murmurhash3_x64_128 [] 0 = (0, 0) := by
  refine ⟨by decide, by decide, by decide, by decide, by decide, by decide⟩

/-- C4: for every 32-bit accumulator `h` and input word `k`, `feed32(h,k)`
computes, with all arithmetic modulo `2^32`:
`k' = ((k * C1) rotl 15) * C2`, then `h' = (((h XOR k') rotl 13) * 5) + C3`
with `C1 = 0xcc9e2d51`, `C2 = 0x1b873593`, `C3 = 0xe6546b64`. -/
theorem c4_feed32_block_step_formula (h k : Nat) :
    hash32.feed32 h k
      = (rotl32 ((h % 2 ^ 32) ^^^
            (rotl32 (k * 0xcc9e2d51 % 2 ^ 32) 15 * 0x1b873593 % 2 ^ 32)) 13
          * 5 + 0xe6546b64) % 2 ^ 32 :=
  rfl

/-- C5: `feed128` mixes `k1` with C1 then C2 and rotation 31, mixes `k2`
with C2 then C1 and rotation 33, XORs each into its accumulator, updates
`h1` using `h2` (rotl 27, add `h2`, ×5, + C3) and then updates `h2` using
the already-updated `h1` (rotl 31, add new `h1`, ×5, + C4), all modulo
`2^64`. -/
theorem c5_feed128_block_step_formula (h1 h2 k1 k2 : Nat) :
    hash128.feed128 h1 h2 k1 k2
      = (let k1m := rotl64 (k1 * 0x87c37b91114253d5 % 2 ^ 64) 31
            * 0x4cf5ad432745937f % 2 ^ 64
         let h1n := ((rotl64 ((h1 % 2 ^ 64) ^^^ k1m) 27 + h2 % 2 ^ 64) % 2 ^ 64
            * 5 + 0x52dce729) % 2 ^ 64
         let k2m := rotl64 (k2 * 0x4cf5ad432745937f % 2 ^ 64) 33
            * 0x87c37b91114253d5 % 2 ^ 64
         let h2n := ((rotl64 ((h2 % 2 ^ 64) ^^^ k2m) 31 + h1n) % 2 ^ 64
            * 5 + 0x38495ab5) % 2 ^ 64
         (h1n, h2n)) :=
  rfl

/-- C6: for both hasher variants, finalize mutates no field of the hasher
state: two consecutive calls with no intervening write return identical
values, and a write performed after a finalize updates the state exactly
as it would have without the finalize. -/
theorem c6_finalize_is_pure_read (st32 : hash32.Hasher32)
    (st128 : hash128.Hasher128) (c : List Nat) :
    (st32.finish32Op.2 = st32
      ∧ st32.finish32Op.2.finish32Op.1 = st32.finish32Op.1
      ∧ st32.finish32Op.2.write c = st32.write c)
    ∧ (st128.finish128Op.2 = st128
      ∧ st128.finish128Op.2.finish128Op.1 = st128.finish128Op.1
      ∧ st128.finish128Op.2.write c = st128.write c) :=
  ⟨⟨rfl, rfl, rfl⟩, ⟨rfl, rfl, rfl⟩⟩

/-- C7: for both hasher variants, the state invariants (`len` strictly
below the block size, `consume` a multiple of the block size) hold in the
state produced by `with_seed` and are preserved by every `write`. -/
theorem c7_state_invariants :
    (∀ seed : Nat, (hash32.Hasher32.with_seed seed).len < 4
      ∧ (hash32.Hasher32.with_seed seed).consume % 4 = 0
      ∧ (hash128.Hasher128.with_seed seed).len < 16
      ∧ (hash128.Hasher128.with_seed seed).consume % 16 = 0)
    ∧ (∀ (st : hash32.Hasher32) (c : List Nat),
        st.len < 4 ∧ st.consume % 4 = 0 →
        (st.write c).len < 4 ∧ (st.write c).consume % 4 = 0)
    ∧ (∀ (st : hash128.Hasher128) (c : List Nat),
        st.len < 16 ∧ st.consume % 16 = 0 →
        (st.write c).len < 16 ∧ (st.write c).consume % 16 = 0) := by
  refine ⟨fun seed => ⟨Nat.zero_lt_succ 3, rfl, Nat.zero_lt_succ 15, rfl⟩, ?_, ?_⟩
  · intro st c ⟨hl, hc⟩
    by_cases hsm : st.len + c.length < 4
    · rw [hash32.write_small st c hsm]
      refine ⟨?_, ?_⟩
      · show st.len + c.length < 4
        omega
      · show st.consume % 4 = 0
        omega
    · by_cases hz : st.len = 0
      · rw [hash32.write_aligned st c hsm hz]
        refine ⟨?_, ?_⟩
        · show c.length % 4 < 4
          omega
        · show (st.consume + 4 * (c.length / 4)) % 4 = 0
          omega
      · rw [hash32.write_buffered st c hsm hz]
        refine ⟨?_, ?_⟩
        · show (c.drop (4 - st.len)).length % 4 < 4
          omega
        · show (st.consume + 4 + 4 * ((c.drop (4 - st.len)).length / 4)) % 4 = 0
          omega
  · intro st c ⟨hl, hc⟩
    by_cases hsm : st.len + c.length < 16
    · rw [hash128.write128_small st c hsm]
      refine ⟨?_, ?_⟩
      · show st.len + c.length < 16
        omega
      · show st.consume % 16 = 0
        omega
    · by_cases hz : st.len = 0
      · rw [hash128.write128_aligned st c hsm hz]
        refine ⟨?_, ?_⟩
        · show c.length % 16 < 16
          omega
        · show (st.consume + 16 * (c.length / 16)) % 16 = 0
          omega
      · rw [hash128.write128_buffered st c hsm hz]
        refine ⟨?_, ?_⟩
        · show (c.drop (16 - st.len)).length % 16 < 16
          omega
        · show (st.consume + 16 + 16 * ((c.drop (16 - st.len)).length / 16)) % 16 = 0
          omega

theorem c7_state_invariants_witness :
    ((hash32.Hasher32.with_seed 3).write [1, 2, 3, 4, 5]).len < 4
    ∧ ((hash32.Hasher32.with_seed 3).write [1, 2, 3, 4, 5]).consume % 4 = 0
    ∧ ((hash128.Hasher128.with_seed 3).write [1, 2, 3]).len < 16
    ∧ ((hash128.Hasher128.with_seed 3).write [1, 2, 3]).consume % 16 = 0 :=
  ⟨(c7_state_invariants.2.1 _ [1, 2, 3, 4, 5]
      ⟨(c7_state_invariants.1 3).1, (c7_state_invariants.1 3).2.1⟩).1,
   (c7_state_invariants.2.1 _ [1, 2, 3, 4, 5]
      ⟨(c7_state_invariants.1 3).1, (c7_state_invariants.1 3).2.1⟩).2,
   (c7_state_invariants.2.2 _ [1, 2, 3]
      ⟨(c7_state_invariants.1 3).2.2.1, (c7_state_invariants.1 3).2.2.2⟩).1,
   (c7_state_invariants.2.2 _ [1, 2, 3]
      ⟨(c7_state_invariants.1 3).2.2.1, (c7_state_invariants.1 3).2.2.2⟩).2⟩

/-- C8: for every seed and every input whose total length is an exact
multiple of the block size (including the empty input), the tail-mix step
is skipped during finalization: the result is the length-XOR followed by
the avalanche mix (plus, for 128-bit, the cross-adds), with no tail bytes
mixed in — in both the one-shot functions and the incremental finalize. -/
theorem c8_block_aligned_input_skips_tail_mix :
    (∀ (bytes : List Nat) (seed : Nat), bytes.length % 4 = 0 →
      hash32.murmurhash3_x86_32 bytes seed
        = hash32.fmix32
            ((hash32.feedN32 (bytes.length / 4) (seed % 2 ^ 32) bytes % 2 ^ 32)
              ^^^ (bytes.length % 2 ^ 32)))
    ∧ (∀ (chunks : List (List Nat)) (seed : Nat), chunks.flatten.length % 4 = 0 →
      (chunks.foldl hash32.Hasher32.write (hash32.Hasher32.with_seed seed)).finish32
        = hash32.fmix32
            ((hash32.feedN32 (chunks.flatten.length / 4) (seed % 2 ^ 32)
                chunks.flatten % 2 ^ 32)
              ^^^ (chunks.flatten.length % 2 ^ 32)))
    ∧ (∀ (bytes : List Nat) (seed : Nat), bytes.length % 16 = 0 →
      hash128.murmurhash3_x64_128 bytes seed
        = (let r := hash128.feedN128 (bytes.length / 16) (seed % 2 ^ 32)
              (seed % 2 ^ 32) bytes
           let a := (r.1 % 2 ^ 64) ^^^ (bytes.length % 2 ^ 64)
           let b := (r.2 % 2 ^ 64) ^^^ (bytes.length % 2 ^ 64)
           let a2 := (a + b) % 2 ^ 64
           let b2 := (b + a2) % 2 ^ 64
           ((hash128.fmix64 a2 + hash128.fmix64 b2) % 2 ^ 64,
            (hash128.fmix64 b2 + (hash128.fmix64 a2 + hash128.fmix64 b2) % 2 ^ 64)
              % 2 ^ 64)))
    ∧ (∀ (chunks : List (List Nat)) (seed : Nat), chunks.flatten.length % 16 = 0 →
      (chunks.foldl hash128.Hasher128.write (hash128.Hasher128.with_seed seed)).finish128
        = (let r := hash128.feedN128 (chunks.flatten.length / 16) (seed % 2 ^ 32)
              (seed % 2 ^ 32) chunks.flatten
           let a := (r.1 % 2 ^ 64) ^^^ (chunks.flatten.length % 2 ^ 64)
           let b := (r.2 % 2 ^ 64) ^^^ (chunks.flatten.length % 2 ^ 64)
           let a2 := (a + b) % 2 ^ 64
           let b2 := (b + a2) % 2 ^ 64
           ((hash128.fmix64 a2 + hash128.fmix64 b2) % 2 ^ 64,
            (hash128.fmix64 b2 + (hash128.fmix64 a2 + hash128.fmix64 b2) % 2 ^ 64)
              % 2 ^ 64))) := by
  refine ⟨?_, ?_, ?_, ?_⟩
  · intro bytes seed hmod
    have hnil : bytes.drop (4 * (bytes.length / 4)) = [] :=
      List.eq_nil_of_length_eq_zero (by simp; omega)
    show hash32.finish_tail32 (bytes.drop (4 * (bytes.length / 4))) bytes.length
        (hash32.feedN32 (bytes.length / 4) (seed % 2 ^ 32) bytes) = _
    rw [hnil]
    rfl
  · intro chunks seed hmod
    have hinv : hash32.Inv32 seed chunks.flatten
        (chunks.foldl hash32.Hasher32.write (hash32.Hasher32.with_seed seed)) := by
      simpa using hash32.foldWrite_inv32 chunks seed [] _ (hash32.init_inv32 seed)
    obtain ⟨hbuf, hlen, htail, hh, hcon⟩ := hinv
    have hl0 : (chunks.foldl hash32.Hasher32.write
        (hash32.Hasher32.with_seed seed)).len = 0 := by omega
    have hc : (chunks.foldl hash32.Hasher32.write
          (hash32.Hasher32.with_seed seed)).consume
        = chunks.flatten.length := by omega
    show hash32.finish_tail32 _ (_ + _) _ = _
    rw [hl0, hh, hc, Nat.add_zero, List.take_zero]
    rfl
  · intro bytes seed hmod
    have hnil : bytes.drop (16 * (bytes.length / 16)) = [] :=
      List.eq_nil_of_length_eq_zero (by simp; omega)
    show hash128.finish_tail128 (bytes.drop (16 * (bytes.length / 16))) bytes.length
        (hash128.feedN128 (bytes.length / 16) (seed % 2 ^ 32) (seed % 2 ^ 32) bytes).1
        (hash128.feedN128 (bytes.length / 16) (seed % 2 ^ 32) (seed % 2 ^ 32) bytes).2
      = _
    rw [hnil]
    rfl
  · intro chunks seed hmod
    have hinv : hash128.Inv128 seed chunks.flatten
        (chunks.foldl hash128.Hasher128.write (hash128.Hasher128.with_seed seed)) := by
      simpa using hash128.foldWrite_inv128 chunks seed [] _ (hash128.init_inv128 seed)
    obtain ⟨hbuf, hlen, htail, hh1, hh2, hcon⟩ := hinv
    have hl0 : (chunks.foldl hash128.Hasher128.write
        (hash128.Hasher128.with_seed seed)).len = 0 := by omega
    have hc : (chunks.foldl hash128.Hasher128.write
          (hash128.Hasher128.with_seed seed)).consume
        = chunks.flatten.length := by omega
    show hash128.finish_tail128 _ (_ + _) _ _ = _
    rw [hl0, hh1, hh2, hc, Nat.add_zero, List.take_zero]
    rfl

theorem c8_block_aligned_input_skips_tail_mix_witness :
    (hash32.murmurhash3_x86_32 [1, 2, 3, 4] 5
      = hash32.fmix32
          ((hash32.feedN32 (([1, 2, 3, 4] : List Nat).length / 4) (5 % 2 ^ 32)
              [1, 2, 3, 4] % 2 ^ 32)
            ^^^ (([1, 2, 3, 4] : List Nat).length % 2 ^ 32)))
    ∧ ((([[1, 2], [3, 4]] : List (List Nat)).foldl hash32.Hasher32.write
          (hash32.Hasher32.with_seed 5)).finish32
      = hash32.fmix32
          ((hash32.feedN32 (([[1, 2], [3, 4]] : List (List Nat)).flatten.length / 4)
              (5 % 2 ^ 32) ([[1, 2], [3, 4]] : List (List Nat)).flatten % 2 ^ 32)
            ^^^ (([[1, 2], [3, 4]] : List (List Nat)).flatten.length % 2 ^ 32)))
    ∧ (hash128.murmurhash3_x64_128
          [1, 2, 3, 4, 5, 6, 7, 8, 9, 10, 11, 12, 13, 14, 15, 16] 5
      = (let r := hash128.feedN128
            (([1, 2, 3, 4, 5, 6, 7, 8, 9, 10, 11, 12, 13, 14, 15, 16] : List Nat).length / 16)
            (5 % 2 ^ 32) (5 % 2 ^ 32)
            [1, 2, 3, 4, 5, 6, 7, 8, 9, 10, 11, 12, 13, 14, 15, 16]
         let a := (r.1 % 2 ^ 64) ^^^
            (([1, 2, 3, 4, 5, 6, 7, 8, 9, 10, 11, 12, 13, 14, 15, 16] : List Nat).length % 2 ^ 64)
         let b := (r.2 % 2 ^ 64) ^^^
            (([1, 2, 3, 4, 5, 6, 7, 8, 9, 10, 11, 12, 13, 14, 15, 16] : List Nat).length % 2 ^ 64)
         let a2 := (a + b) % 2 ^ 64
         let b2 := (b + a2) % 2 ^ 64
         ((hash128.fmix64 a2 + hash128.fmix64 b2) % 2 ^ 64,
          (hash128.fmix64 b2 + (hash128.fmix64 a2 + hash128.fmix64 b2) % 2 ^ 64)
            % 2 ^ 64)))
    ∧ ((([[1, 2, 3, 4, 5, 6, 7, 8], [9, 10, 11, 12, 13, 14, 15, 16]] :
          List (List Nat)).foldl hash128.Hasher128.write
          (hash128.Hasher128.with_seed 5)).finish128
      = (let r := hash128.feedN128
            (([[1, 2, 3, 4, 5, 6, 7, 8], [9, 10, 11, 12, 13, 14, 15, 16]] :
                List (List Nat)).flatten.length / 16)
            (5 % 2 ^ 32) (5 % 2 ^ 32)
            ([[1, 2, 3, 4, 5, 6, 7, 8], [9, 10, 11, 12, 13, 14, 15, 16]] :
                List (List Nat)).flatten
         let a := (r.1 % 2 ^ 64) ^^^
            (([[1, 2, 3, 4, 5, 6, 7, 8], [9, 10, 11, 12, 13, 14, 15, 16]] :
                List (List Nat)).flatten.length % 2 ^ 64)
         let b := (r.2 % 2 ^ 64) ^^^
            (([[1, 2, 3, 4, 5, 6, 7, 8], [9, 10, 11, 12, 13, 14, 15, 16]] :
                List (List Nat)).flatten.length % 2 ^ 64)
         let a2 := (a + b) % 2 ^ 64
         let b2 := (b + a2) % 2 ^ 64
         ((hash128.fmix64 a2 + hash128.fmix64 b2) % 2 ^ 64,
          (hash128.fmix64 b2 + (hash128.fmix64 a2 + hash128.fmix64 b2) % 2 ^ 64)
            % 2 ^ 64))) :=
  ⟨c8_block_aligned_input_skips_tail_mix.1 [1, 2, 3, 4] 5 (by decide),
   c8_block_aligned_input_skips_tail_mix.2.1 [[1, 2], [3, 4]] 5 (by decide),
   c8_block_aligned_input_skips_tail_mix.2.2.1
     [1, 2, 3, 4, 5, 6, 7, 8, 9, 10, 11, 12, 13, 14, 15, 16] 5 (by decide),
   c8_block_aligned_input_skips_tail_mix.2.2.2
     [[1, 2, 3, 4, 5, 6, 7, 8], [9, 10, 11, 12, 13, 14, 15, 16]] 5 (by decide)⟩

/-- C9: the generic `Hasher::finish` adapter: `Hasher32::finish()` equals
`finish32()` zero-extended from 32 to 64 bits (lossless, since
`finish32 < 2^32`), and `Hasher128::finish()` equals the first 64-bit
half of `finish128()`. -/
theorem c9_generic_finish_adapter (st32 : hash32.Hasher32)
    (st128 : hash128.Hasher128) :
    st32.finish = st32.finish32
    ∧ st32.finish32 < 2 ^ 32
    ∧ st128.finish = st128.finish128.1 := by
  refine ⟨?_, finish_tail32_lt _ _ _, rfl⟩
  show st32.finish32 % 2 ^ 64 = st32.finish32
  exact Nat.mod_eq_of_lt (lt_trans (finish_tail32_lt _ _ _) (by norm_num))

/-- C10: for both hasher variants, the finalize result depends only on the
accumulator field(s), the `consume` counter, the `len` field, and the
first `len` bytes of the pending buffer; stale buffer bytes at positions
`len` and beyond never influence the result. -/
theorem c10_finalize_ignores_stale_buffer_bytes :
    (∀ s t : hash32.Hasher32, s.h = t.h → s.consume = t.consume →
      s.len = t.len → s.buf.take s.len = t.buf.take t.len →
      s.finish32 = t.finish32)
    ∧ (∀ s t : hash128.Hasher128, s.h1 = t.h1 → s.h2 = t.h2 →
      s.consume = t.consume → s.len = t.len →
      s.buf.take s.len = t.buf.take t.len →
      s.finish128 = t.finish128) := by
  constructor
  · intro s t hh hcon hlen htake
    show hash32.finish_tail32 (s.buf.take s.len) (s.consume + s.len) s.h
      = hash32.finish_tail32 (t.buf.take t.len) (t.consume + t.len) t.h
    rw [htake, hh, hcon, hlen]
  · intro s t hh1 hh2 hcon hlen htake
    show hash128.finish_tail128 (s.buf.take s.len) (s.consume + s.len) s.h1 s.h2
      = hash128.finish_tail128 (t.buf.take t.len) (t.consume + t.len) t.h1 t.h2
    rw [htake, hh1, hh2, hcon, hlen]

theorem c10_finalize_ignores_stale_buffer_bytes_witness :
    hash32.Hasher32.finish32 ⟨1, [1, 2, 9, 9], 2, 4⟩
      = hash32.Hasher32.finish32 ⟨1, [1, 2, 0, 0], 2, 4⟩
    ∧ hash128.Hasher128.finish128
        ⟨1, 2, [1, 2, 3, 9, 9, 9, 9, 9, 9, 9, 9, 9, 9, 9, 9, 9], 3, 16⟩
      = hash128.Hasher128.finish128
        ⟨1, 2, [1, 2, 3, 0, 0, 0, 0, 0, 0, 0, 0, 0, 0, 0, 0, 0], 3, 16⟩ :=
  ⟨c10_finalize_ignores_stale_buffer_bytes.1 _ _ rfl rfl rfl rfl,
   c10_finalize_ignores_stale_buffer_bytes.2 _ _ rfl rfl rfl rfl rfl⟩
